import Mathlib

/-!
Verification of cvxportfolio's decision-time engine against its design
document.  We shallowly embed the relevant parts of `forecast.py` and
`policies.py`: pandas frames of possibly-missing returns become lists of
rows of `Option ℚ`, numpy float arithmetic becomes exact `ℚ` (or `ℝ` for
the spectral code), raised exceptions become `Except` values, and the
cvxpy solver / LAPACK eigendecomposition become explicit oracles.
-/

namespace Cvxportfolio

open Matrix

/-- The error taxonomy of `errors.py` as used by the embedded code:
`DataError`, `MissingTimesError`, `ForecastError`,
`ConvexSpecificationError`, `ConvexityError`,
`PortfolioOptimizationError`. -/
inductive CvxError where
  | dataError
  | missingTimesError
  | forecastError
  | convexSpecificationError
  | convexityError
  | portfolioOptimizationError
deriving DecidableEq

/-- One entry of the past-returns table: `none` models a NaN (missing)
value, `some x` a present return. -/
abbrev Entry : Type := Option ℚ

/-- One row of the past-returns table over `n` non-cash assets plus the
cash column, which is last (index `Fin.last n`). -/
abbrev Row (n : ℕ) : Type := Fin (n + 1) → Entry

/-- `past_returns.iloc[:, :-1]`: read non-cash column `i` of a full row,
dropping the cash column. -/
def noncash {n : ℕ} (r : Row n) (i : Fin n) : Entry := r i.castSucc

/-- The running sufficient statistics `_last_counts` / `_last_sum` of
`HistoricalMeanReturn` and `HistoricalVariance`: a per-non-cash-asset
count of non-missing observations and a per-asset accumulated sum. -/
structure SuffStats (n : ℕ) where
  counts : Fin n → ℕ
  sums : Fin n → ℚ

instance {n : ℕ} : DecidableEq (SuffStats n) := fun a b =>
  decidable_of_iff (a.counts = b.counts ∧ a.sums = b.sums)
    (by cases a; cases b; simp)

namespace HistoricalMeanReturn

/-- `HistoricalMeanReturn._initial_compute`: from-scratch statistics.
`counts` is `past_returns.iloc[:, :-1].count()` (non-missing entries per
column) and `sums` is `past_returns.iloc[:, :-1].sum()` (pandas sum
skips NaN, i.e. sums the values with missing entries contributing
nothing). -/
def initial_compute {n : ℕ} (past_returns : List (Row n)) : SuffStats n where
  counts := fun i => past_returns.countP fun r => (noncash r i).isSome
  sums := fun i => (past_returns.map fun r => (noncash r i).getD 0).sum

/-- `HistoricalMeanReturn._online_update`: add the newly observed last
row; `counts += ~isnull`, `sums += fillna(0.)`. -/
def online_update {n : ℕ} (s : SuffStats n) (last : Row n) : SuffStats n where
  counts := fun i => s.counts i + (if (noncash last i).isSome then 1 else 0)
  sums := fun i => s.sums i + (noncash last i).getD 0

/-- The value emitted by `HistoricalMeanReturn.values_in_time`:
`(self._last_sum / self._last_counts).values`. -/
def emitted_value {n : ℕ} (s : SuffStats n) : Fin n → ℚ :=
  fun i => s.sums i / (s.counts i : ℚ)

end HistoricalMeanReturn

namespace HistoricalVariance

/-- `HistoricalVariance._initial_compute` (default `kelly=True`):
`counts` as for the mean, `sums` is `(past_returns.iloc[:, :-1]**2).sum()`
(squares of present values, missing entries contributing nothing). -/
def initial_compute {n : ℕ} (past_returns : List (Row n)) : SuffStats n where
  counts := fun i => past_returns.countP fun r => (noncash r i).isSome
  sums := fun i => (past_returns.map fun r => ((noncash r i).getD 0) ^ 2).sum

/-- `HistoricalVariance._online_update`: `counts += ~isnull`,
`sums += fillna(0.)**2`. -/
def online_update {n : ℕ} (s : SuffStats n) (last : Row n) : SuffStats n where
  counts := fun i => s.counts i + (if (noncash last i).isSome then 1 else 0)
  sums := fun i => s.sums i + ((noncash last i).getD 0) ^ 2

/-- The value emitted by `HistoricalVariance.values_in_time` with the
default `kelly=True`: `(self._last_sum / self._last_counts).values`. -/
def emitted_value {n : ℕ} (s : SuffStats n) : Fin n → ℚ :=
  fun i => s.sums i / (s.counts i : ℚ)

end HistoricalVariance

instance {ε α : Type} [DecidableEq ε] [DecidableEq α] : DecidableEq (Except ε α) :=
  fun a b =>
  match a, b with
  | .ok x, .ok y => decidable_of_iff (x = y) (by simp)
  | .error e, .error f => decidable_of_iff (e = f) (by simp)
  | .ok _, .error _ => isFalse fun h => Except.noConfusion h
  | .error _, .ok _ => isFalse fun h => Except.noConfusion h

/-! ### Online value cache (`forecast.py`, `online_cache`) -/

/-- The structural identity of a forecaster, as used by the cache dict:
the `dataclass(unsafe_hash=True)` hash/equality is computed from the
class and its configuration fields, never from the object address.  We
model it as a class tag plus the configuration (here the `kelly` flag,
the only configuration field of the historical forecasters). -/
structure ForecasterSignature where
  tag : ℕ
  kelly : Bool
deriving DecidableEq

/-- A live forecaster object: an object address (ignored by the cache)
plus its structural signature. -/
structure ForecasterInstance where
  addr : ℕ
  sig : ForecasterSignature
deriving DecidableEq

/-- A cache key: (forecaster structural identity, timestamp), modelling
the nested dict `cache[self][t]`. -/
abbrev CacheKey : Type := ForecasterSignature × ℕ

/-- The cache dict threaded through one run. -/
abbrev Cache : Type := List (CacheKey × ℚ)

/-- Dictionary lookup in the cache. -/
def cacheLookup (c : Cache) (k : CacheKey) : Option ℚ :=
  match c with
  | [] => none
  | (k₁, v) :: rest => if k₁ = k then some v else cacheLookup rest k

/-- The observable outcome of one wrapped `values_in_time` call: the
returned value, the cache afterwards, and whether the underlying
computation was invoked. -/
structure CachedCallResult where
  value : ℚ
  cache : Cache
  computed : Bool
deriving DecidableEq

/-- The `online_cache` decorator of `forecast.py`: if `t` is present in
`cache[self]` return the stored value, else invoke the wrapped
computation, store its result under `(self, t)` and return it.  The
underlying computation is modelled as a function of the structural
signature and the timestamp. -/
def online_cache (compute : ForecasterSignature → ℕ → ℚ) (cache : Cache)
    (self : ForecasterInstance) (t : ℕ) : CachedCallResult :=
  match cacheLookup cache (self.sig, t) with
  | some v => ⟨v, cache, false⟩
  | none => ⟨compute self.sig t, ((self.sig, t), compute self.sig t) :: cache, true⟩

/-- Number of invocations of the underlying computation, for a given
cache key, over a sequence of wrapped calls threading one cache. -/
def countComputations (compute : ForecasterSignature → ℕ → ℚ) :
    List (ForecasterInstance × ℕ) → Cache → CacheKey → ℕ
  | [], _, _ => 0
  | (f, t) :: rest, cache, k =>
    (if (online_cache compute cache f t).computed = true ∧ (f.sig, t) = k
      then 1 else 0)
    + countComputations compute rest (online_cache compute cache f t).cache k

/-! ### Multi-period problem compiler (`policies.py`, `MultiPeriodOptimization`) -/

/-- One compiled per-stage objective term, abstracted to the two cvxpy
attributes interrogated by `_compile_to_cvxpy`: `is_dcp()` and
`is_concave()`. -/
structure ObjTerm where
  is_dcp : Bool
  is_concave : Bool
deriving DecidableEq

/-- One compiled user constraint, abstracted to its `is_dcp()` attribute
plus an opaque label standing for its meaning. -/
structure UserConstraint where
  is_dcp : Bool
  label : ℕ
deriving DecidableEq

namespace MultiPeriodOptimization

/-- One member of `self.cvxpy_constraints` after `_compile_to_cvxpy`
has run, for a planning horizon of `H` stages: a compiled user
constraint, `cp.sum(z_i) == 0`, the stage dynamics
`w_i == z_i + w_prev`, the benchmark wiring `w_i - w_bm == d_i`, or the
terminal constraint `w == terminal_constraint`. -/
inductive CompiledConstraint (H : ℕ) where
  | user (u : UserConstraint)
  | zSumZero (i : Fin H)
  | dynamics (i : Fin H)
  | benchmarkDiff (i : Fin H)
  | terminal
deriving DecidableEq

/-- The constraint list assembled by `_compile_to_cvxpy`, in source
order: the flattened per-stage user constraints, then
`cp.sum(z) == 0` for every stage, then the loop appending per stage the
dynamics and the benchmark-difference constraints, then (when
`terminal_constraint` is not `None`) the terminal constraint. -/
def assembled_constraints (H : ℕ) (constraints : List (List UserConstraint))
    (hasTerminal : Bool) : List (CompiledConstraint H) :=
  (constraints.flatten.map CompiledConstraint.user)
    ++ (List.ofFn fun i : Fin H => CompiledConstraint.zSumZero i)
    ++ ((List.finRange H).flatMap fun i =>
        [CompiledConstraint.dynamics i, CompiledConstraint.benchmarkDiff i])
    ++ (if hasTerminal then [CompiledConstraint.terminal] else [])

/-- The validation loop of `_compile_to_cvxpy` over the compiled
objective terms: the first term with `not term.is_dcp()` raises
`ConvexSpecificationError`, else the first with `not term.is_concave()`
raises `ConvexityError`. -/
def compile_check_objective : List ObjTerm → Except CvxError Unit
  | [] => .ok ()
  | t :: rest =>
    if t.is_dcp = false then .error CvxError.convexSpecificationError
    else if t.is_concave = false then .error CvxError.convexityError
    else compile_check_objective rest

/-- `compile_and_check_constraint` applied over all stages' user
constraints: the first constraint with `not el.is_dcp()` raises
`ConvexSpecificationError`. -/
def compile_check_constraints : List UserConstraint → Except CvxError Unit
  | [] => .ok ()
  | c :: rest =>
    if c.is_dcp = false then .error CvxError.convexSpecificationError
    else compile_check_constraints rest

/-- `MultiPeriodOptimization._compile_to_cvxpy`: validate the objective
terms, then the user constraints, then assemble the full constraint
list of the program. -/
def compile_to_cvxpy (H : ℕ) (objective : List ObjTerm)
    (constraints : List (List UserConstraint)) (hasTerminal : Bool) :
    Except CvxError (List (CompiledConstraint H)) :=
  match compile_check_objective objective with
  | .error e => .error e
  | .ok _ =>
    match compile_check_constraints constraints.flatten with
    | .error e => .error e
    | .ok _ => .ok (assembled_constraints H constraints hasTerminal)

/-- `MultiPeriodOptimization.initialize_estimator_recursive`: after the
children are initialized and the cvxpy variables allocated (neither of
which reads market data — the arguments are the universe and the
trading calendar only), it ends by calling `self._compile_to_cvxpy()`.
Compilation and its convexity validation therefore happen during
initialization, before any solve. -/
def initialize_estimator_recursive (H : ℕ) (objective : List ObjTerm)
    (constraints : List (List UserConstraint)) (hasTerminal : Bool) :
    Except CvxError (List (CompiledConstraint H)) :=
  compile_to_cvxpy H objective constraints hasTerminal

/-- An assignment to the per-stage cvxpy variables `z_at_lags`,
`w_plus_at_lags` and `w_plus_minus_w_bm_at_lags`, each of dimension the
universe size `n`. -/
structure MpoVars (H n : ℕ) where
  z : Fin H → Fin n → ℚ
  w_plus : Fin H → Fin n → ℚ
  w_plus_minus_w_bm : Fin H → Fin n → ℚ

/-- The `w` wired into stage `i`'s dynamics constraint by the loop of
`_compile_to_cvxpy`: the parameter `w_current` for the first stage, and
the previous stage's post-trade weight variable afterwards. -/
def prevW {H n : ℕ} (w_current : Fin n → ℚ) (v : MpoVars H n) (i : Fin H) :
    Fin n → ℚ :=
  if _h : (i : ℕ) = 0 then w_current
  else v.w_plus ⟨(i : ℕ) - 1, lt_of_le_of_lt (Nat.sub_le _ _) i.isLt⟩

/-- Satisfaction of one compiled constraint by an assignment, given the
parameter values `w_current` and `w_bm`, the terminal target, and the
semantics `usem` of the opaque user constraints. -/
def constraint_holds {H n : ℕ} (w_current w_bm terminal_target : Fin n → ℚ)
    (usem : UserConstraint → MpoVars H n → Prop) (v : MpoVars H n) :
    CompiledConstraint H → Prop
  | .user u => usem u v
  | .zSumZero i => (∑ j, v.z i j) = 0
  | .dynamics i => ∀ j, v.w_plus i j = v.z i j + prevW w_current v i j
  | .benchmarkDiff i => ∀ j, v.w_plus i j - w_bm j = v.w_plus_minus_w_bm i j
  | .terminal =>
    if h : 0 < H then
      ∀ j, v.w_plus ⟨H - 1, Nat.sub_lt h Nat.one_pos⟩ j = terminal_target j
    else True

/-- The status reported by `cvxpy.Problem.solve` when it returns
without raising. -/
inductive SolverStatus where
  | optimal
  | optimal_inaccurate
  | infeasible
  | infeasible_inaccurate
  | unbounded
  | unbounded_inaccurate
deriving DecidableEq

/-- The outcome of the solver oracle at one decision step: either the
solve call raised `cvxpy.SolverError`, or it returned with a status and
the value of the first-stage trade variable `z_at_lags[0]`. -/
inductive SolveOutcome (n : ℕ) where
  | solverError
  | solved (status : SolverStatus) (z0 : Fin n → ℚ)

/-- The outcome handling of
`MultiPeriodOptimization.values_in_time_recursive` after the parameters
are refreshed: a solver exception becomes `PortfolioOptimizationError`;
an unbounded or infeasible status (including the inaccurate variants)
becomes `PortfolioOptimizationError`; otherwise the realized post-trade
weights `current_weights + z_at_lags[0].value` are returned. -/
def values_in_time_recursive {n : ℕ} (current_weights : Fin n → ℚ)
    (outcome : SolveOutcome n) : Except CvxError (Fin n → ℚ) :=
  match outcome with
  | .solverError => .error CvxError.portfolioOptimizationError
  | .solved status z0 =>
    if status = .unbounded ∨ status = .unbounded_inaccurate then
      .error CvxError.portfolioOptimizationError
    else if status = .infeasible ∨ status = .infeasible_inaccurate then
      .error CvxError.portfolioOptimizationError
    else .ok fun i => current_weights i + z0 i

end MultiPeriodOptimization

/-! ### Factorized covariance (`forecast.py`) -/

/-- Square real matrices over the non-cash universe. -/
abbrev Mat (n : ℕ) : Type := Matrix (Fin n) (Fin n) ℝ

/-- An oracle modelling `np.linalg.eigh`: for a (symmetric) input it
returns the vector of eigenvalues and the matrix of eigenvectors.  Its
contract, assumed where needed, is that the input equals
`eigvec * diagonal eigval * eigvecᵀ`. -/
abbrev EighOracle (n : ℕ) : Type := Mat n → (Fin n → ℝ) × Mat n

/-- `project_on_psd_cone_and_factorize`: eigendecompose the input, clip
the eigenvalues at zero (`np.maximum(eigval, 0.)`), and return
`eigvec @ np.diag(np.sqrt(eigval))`. -/
noncomputable def project_on_psd_cone_and_factorize {n : ℕ}
    (eigh : EighOracle n) (covariance : Mat n) : Mat n :=
  (eigh covariance).2
    * Matrix.diagonal fun i => Real.sqrt (max ((eigh covariance).1 i) 0)

namespace HistoricalFactorizedCovariance

/-- The running state `_last_counts_matrix` / `_last_sum_matrix` of
`HistoricalFactorizedCovariance` (default `kelly=True`, where
`_joint_mean` is unused): pairwise non-missing co-occurrence counts and
pairwise product sums. -/
structure State (n : ℕ) where
  last_counts_matrix : Mat n
  last_sum_matrix : Mat n

/-- The covariance estimated by `values_in_time` with `kelly=True`:
the elementwise quotient
`self._last_sum_matrix / self._last_counts_matrix`. -/
noncomputable def covariance_estimate {n : ℕ} (s : State n) : Mat n :=
  Matrix.of fun i j => s.last_sum_matrix i j / s.last_counts_matrix i j

/-- `HistoricalFactorizedCovariance.values_in_time` (with `kelly=True`),
after the statistics are brought up to date: it returns
`project_on_psd_cone_and_factorize(covariance)` applied to the
estimated covariance. -/
noncomputable def values_in_time {n : ℕ} (eigh : EighOracle n)
    (s : State n) : Mat n :=
  project_on_psd_cone_and_factorize eigh (covariance_estimate s)

end HistoricalFactorizedCovariance

/-! ### Policy façade and simple policies (`policies.py`) -/

/-- `DataEstimator` lookup of user-supplied data at time `t`.
Modelled from the spec: `estimator.py` is not among the provided
sources; per the spec's recursive-composition protocol and the
documented behaviour of `FixedTrades`/`FixedWeights` ("if a certain
time ... is not present in the data provided"), the lookup of a
time-indexed table raises `MissingTimesError` when `t` has no entry and
returns the entry otherwise (a constant table has an entry for every
`t`). -/
def DataEstimator.values_in_time_recursive {α : Type} (data : ℕ → Option α)
    (t : ℕ) : Except CvxError α :=
  match data t with
  | some v => .ok v
  | none => .error CvxError.missingTimesError

namespace FixedTrades

/-- `FixedTrades.values_in_time_recursive`: look up the trade-weights
row for time `t`; on success return `current_weights + trades`, and if
the lookup raised `MissingTimesError` catch it and return
`current_weights` unchanged (any other error propagates). -/
def values_in_time_recursive {n : ℕ} (trades_weights : ℕ → Option (Fin n → ℚ))
    (t : ℕ) (current_weights : Fin n → ℚ) : Except CvxError (Fin n → ℚ) :=
  match DataEstimator.values_in_time_recursive trades_weights t with
  | .ok z => .ok fun i => current_weights i + z i
  | .error CvxError.missingTimesError => .ok current_weights
  | .error e => .error e

end FixedTrades

namespace FixedWeights

/-- `FixedWeights.values_in_time_recursive`: look up the target-weights
row for time `t`; on success return
`current_weights + target - current_weights`, and if the lookup raised
`MissingTimesError` catch it and return `current_weights` unchanged
(any other error propagates). -/
def values_in_time_recursive {n : ℕ} (target_weights : ℕ → Option (Fin n → ℚ))
    (t : ℕ) (current_weights : Fin n → ℚ) : Except CvxError (Fin n → ℚ) :=
  match DataEstimator.values_in_time_recursive target_weights t with
  | .ok w => .ok fun i => current_weights i + w i - current_weights i
  | .error CvxError.missingTimesError => .ok current_weights
  | .error e => .error e

end FixedWeights

namespace Uniform

/-- `Uniform.initialize_estimator`: build the constant target weights.
In source order over a universe of `n` non-cash assets plus cash
(last): start from all ones, zero the cash entry, divide by the total,
multiply by the leverage, then set the cash entry to one minus the
total. -/
def target_weights (n : ℕ) (leverage : ℚ) : Fin (n + 1) → ℚ :=
  let t₁ : Fin (n + 1) → ℚ := fun _ => 1
  let t₂ : Fin (n + 1) → ℚ := fun i => if i = Fin.last n then 0 else t₁ i
  let t₃ : Fin (n + 1) → ℚ := fun i => t₂ i / ∑ j, t₂ j
  let t₄ : Fin (n + 1) → ℚ := fun i => t₃ i * leverage
  fun i => if i = Fin.last n then 1 - ∑ j, t₄ j else t₄ i

end Uniform

namespace Policy

/-- `Policy.execute` from the resolution of the holdings onwards: with
`v = np.sum(h)`, raise `DataError` when `v < 0` — before the holdings
are converted to weights `w = h / v` and before the policy's
target-weight computation (modelled by the abstract `policyEval`,
standing for `values_in_time_recursive` of the concrete policy) is
invoked; otherwise return the dollar trade vector
`u = (w_plus - w) * v`. -/
def execute {n : ℕ}
    (policyEval : (Fin (n + 1) → ℚ) → ℚ → Except CvxError (Fin (n + 1) → ℚ))
    (h : Fin (n + 1) → ℚ) : Except CvxError (Fin (n + 1) → ℚ) :=
  let v : ℚ := ∑ i, h i
  if v < 0 then .error CvxError.dataError
  else
    match policyEval (fun i => h i / v) v with
    | .ok w_plus => .ok fun i => (w_plus i - h i / v) * v
    | .error e => .error e

end Policy

/-! ## Theorems -/

namespace HistoricalMeanReturn

theorem mean_initial_compute_append {n : ℕ} (rows : List (Row n)) (r : Row n) :
    initial_compute (rows ++ [r]) = online_update (initial_compute rows) r := by
  unfold initial_compute online_update
  simp only [SuffStats.mk.injEq]
  constructor
  · funext i
    simp [List.countP_append, List.countP_cons]
  · funext i
    simp [List.map_append]

theorem mean_foldl_online_update {n : ℕ} (extra init : List (Row n)) :
    extra.foldl online_update (initial_compute init)
      = initial_compute (init ++ extra) := by
  induction extra generalizing init with
  | nil => simp
  | cons x xs ih =>
    rw [List.foldl_cons, ← mean_initial_compute_append, ih, ← List.append_cons]

end HistoricalMeanReturn

namespace HistoricalVariance

theorem variance_initial_compute_append {n : ℕ} (rows : List (Row n)) (r : Row n) :
    initial_compute (rows ++ [r]) = online_update (initial_compute rows) r := by
  unfold initial_compute online_update
  simp only [SuffStats.mk.injEq]
  constructor
  · funext i
    simp [List.countP_append, List.countP_cons]
  · funext i
    simp [List.map_append]

theorem variance_foldl_online_update {n : ℕ} (extra init : List (Row n)) :
    extra.foldl online_update (initial_compute init)
      = initial_compute (init ++ extra) := by
  induction extra generalizing init with
  | nil => simp
  | cons x xs ih =>
    rw [List.foldl_cons, ← variance_initial_compute_append, ih, ← List.append_cons]

end HistoricalVariance

/-- Claim C1: for `HistoricalMeanReturn` and `HistoricalVariance`, on a
returns history with no missing values, the from-scratch statistics
over the first `m` rows followed by one incremental online update per
further row up to row `k` equal — counts, sums, and emitted
mean/variance value — the single from-scratch computation over rows
`[0, k)` (exact in `ℚ`, so in particular up to floating-point
accumulation order). -/
theorem c1_incremental_equivalence {n : ℕ} (rows : List (Row n)) (m k : ℕ)
    (hm : 1 ≤ m) (hmk : m ≤ k) (hk : k ≤ rows.length)
    (hfull : ∀ r ∈ rows, ∀ j, (r j).isSome = true) :
    (((rows.drop m).take (k - m)).foldl HistoricalMeanReturn.online_update
        (HistoricalMeanReturn.initial_compute (rows.take m))
        = HistoricalMeanReturn.initial_compute (rows.take k)
      ∧ HistoricalMeanReturn.emitted_value
          (((rows.drop m).take (k - m)).foldl HistoricalMeanReturn.online_update
            (HistoricalMeanReturn.initial_compute (rows.take m)))
          = HistoricalMeanReturn.emitted_value
            (HistoricalMeanReturn.initial_compute (rows.take k)))
    ∧ (((rows.drop m).take (k - m)).foldl HistoricalVariance.online_update
        (HistoricalVariance.initial_compute (rows.take m))
        = HistoricalVariance.initial_compute (rows.take k)
      ∧ HistoricalVariance.emitted_value
          (((rows.drop m).take (k - m)).foldl HistoricalVariance.online_update
            (HistoricalVariance.initial_compute (rows.take m)))
          = HistoricalVariance.emitted_value
            (HistoricalVariance.initial_compute (rows.take k))) := by
  have hsplit : rows.take m ++ (rows.drop m).take (k - m) = rows.take k := by
    rw [← List.take_add rows m (k - m), Nat.add_sub_cancel' hmk]
  have hmean := HistoricalMeanReturn.mean_foldl_online_update
    ((rows.drop m).take (k - m)) (rows.take m)
  have hvar := HistoricalVariance.variance_foldl_online_update
    ((rows.drop m).take (k - m)) (rows.take m)
  rw [hsplit] at hmean hvar
  exact ⟨⟨hmean, by rw [hmean]⟩, ⟨hvar, by rw [hvar]⟩⟩

/-- Witness for C1: a two-row, one-asset-plus-cash history with no
missing values, split point `m = 1`, endpoint `k = 2`. -/
theorem c1_incremental_equivalence_witness :
    (1 ≤ 1 ∧ (1 : ℕ) ≤ 2
      ∧ 2 ≤ ([fun _ => some 1, fun _ => some 2] : List (Row 1)).length
      ∧ ∀ r ∈ ([fun _ => some 1, fun _ => some 2] : List (Row 1)),
          ∀ j, (r j).isSome = true)
    ∧ ((((([fun _ => some 1, fun _ => some 2] : List (Row 1)).drop 1).take (2 - 1)).foldl
          HistoricalMeanReturn.online_update
          (HistoricalMeanReturn.initial_compute
            (([fun _ => some 1, fun _ => some 2] : List (Row 1)).take 1))
          = HistoricalMeanReturn.initial_compute
            (([fun _ => some 1, fun _ => some 2] : List (Row 1)).take 2)
        ∧ HistoricalMeanReturn.emitted_value
            ((((([fun _ => some 1, fun _ => some 2] : List (Row 1)).drop 1).take (2 - 1))).foldl
              HistoricalMeanReturn.online_update
              (HistoricalMeanReturn.initial_compute
                (([fun _ => some 1, fun _ => some 2] : List (Row 1)).take 1)))
            = HistoricalMeanReturn.emitted_value
              (HistoricalMeanReturn.initial_compute
                (([fun _ => some 1, fun _ => some 2] : List (Row 1)).take 2)))
      ∧ (((([fun _ => some 1, fun _ => some 2] : List (Row 1)).drop 1).take (2 - 1)).foldl
          HistoricalVariance.online_update
          (HistoricalVariance.initial_compute
            (([fun _ => some 1, fun _ => some 2] : List (Row 1)).take 1))
          = HistoricalVariance.initial_compute
            (([fun _ => some 1, fun _ => some 2] : List (Row 1)).take 2)
        ∧ HistoricalVariance.emitted_value
            ((((([fun _ => some 1, fun _ => some 2] : List (Row 1)).drop 1).take (2 - 1))).foldl
              HistoricalVariance.online_update
              (HistoricalVariance.initial_compute
                (([fun _ => some 1, fun _ => some 2] : List (Row 1)).take 1)))
            = HistoricalVariance.emitted_value
              (HistoricalVariance.initial_compute
                (([fun _ => some 1, fun _ => some 2] : List (Row 1)).take 2)))) :=
  ⟨⟨le_refl 1, by decide, by decide, by decide⟩,
    c1_incremental_equivalence ([fun _ => some 1, fun _ => some 2] : List (Row 1))
      1 2 (le_refl 1) (by decide) (by decide) (by decide)⟩

theorem countP_set_cancel {α : Type} (l : List α) (r : ℕ) (hr : r < l.length)
    (x : α) (p : α → Bool) :
    (l.set r x).countP p + (if p (l.get ⟨r, hr⟩) = true then 1 else 0)
      = l.countP p + (if p x = true then 1 else 0) := by
  induction l generalizing r with
  | nil => simp at hr
  | cons a tl ih =>
    cases r with
    | zero =>
      have hget : (a :: tl).get ⟨0, hr⟩ = a := rfl
      simp only [List.set_cons_zero, List.countP_cons, hget]
      omega
    | succ r₁ =>
      have hr₁ : r₁ < tl.length := by simpa using hr
      have hget : (a :: tl).get ⟨r₁ + 1, hr⟩ = tl.get ⟨r₁, hr₁⟩ := rfl
      simp only [List.set_cons_succ, List.countP_cons, hget]
      have h := ih r₁ hr₁
      omega

theorem map_sum_set_cancel {α : Type} (l : List α) (r : ℕ) (hr : r < l.length)
    (x : α) (f : α → ℚ) :
    ((l.set r x).map f).sum + f (l.get ⟨r, hr⟩) = (l.map f).sum + f x := by
  induction l generalizing r with
  | nil => simp at hr
  | cons a tl ih =>
    cases r with
    | zero =>
      have hget : (a :: tl).get ⟨0, hr⟩ = a := rfl
      simp only [List.set_cons_zero, List.map_cons, List.sum_cons, hget]
      ring
    | succ r₁ =>
      have hr₁ : r₁ < tl.length := by simpa using hr
      have hget : (a :: tl).get ⟨r₁ + 1, hr⟩ = tl.get ⟨r₁, hr₁⟩ := rfl
      simp only [List.set_cons_succ, List.map_cons, List.sum_cons, hget]
      have h := ih r₁ hr₁
      linarith

/-- Claim C7: for `HistoricalMeanReturn`'s from-scratch computation,
making the entry at row `r`, non-cash column `c` missing removes it
from both the count and the sum of column `c` (it is not treated as a
zero return): column `c`'s count drops by exactly one and its sum by
exactly the removed value, while every other column's count, sum, and
emitted mean are unchanged. -/
theorem c7_missing_value_frame {n : ℕ} (rows : List (Row n)) (r : ℕ)
    (hr : r < rows.length) (c : Fin n) (v : ℚ)
    (hv : noncash (rows.get ⟨r, hr⟩) c = some v) :
    let row' : Row n := fun j => if j = c.castSucc then none
      else rows.get ⟨r, hr⟩ j
    let s := HistoricalMeanReturn.initial_compute rows
    let s' := HistoricalMeanReturn.initial_compute (rows.set r row')
    (s'.counts c + 1 = s.counts c ∧ s'.sums c = s.sums c - v)
    ∧ ∀ j : Fin n, j ≠ c →
        s'.counts j = s.counts j ∧ s'.sums j = s.sums j
          ∧ HistoricalMeanReturn.emitted_value s' j
            = HistoricalMeanReturn.emitted_value s j := by
  intro row' s s'
  have hcount := countP_set_cancel rows r hr row'
  have hsum := map_sum_set_cancel rows r hr row'
  have hrow_c : noncash row' c = none := by
    simp [noncash, row']
  constructor
  · constructor
    · have h := hcount fun row => (noncash row c).isSome
      rw [hv, hrow_c] at h
      simp only [Option.isSome_some, Option.isSome_none] at h
      simpa [HistoricalMeanReturn.initial_compute, s, s'] using h
    · have h := hsum fun row => (noncash row c).getD 0
      rw [hv, hrow_c] at h
      simp only [Option.getD_some, Option.getD_none] at h
      have : s'.sums c + v = s.sums c := by
        simpa [HistoricalMeanReturn.initial_compute, s, s'] using h
      linarith
  · intro j hj
    have hrow_j : noncash row' j = noncash (rows.get ⟨r, hr⟩) j := by
      have : j.castSucc ≠ c.castSucc := by
        simpa [Fin.castSucc_inj] using hj
      simp [noncash, row', this]
    have hcj : s'.counts j = s.counts j := by
      have h := hcount fun row => (noncash row j).isSome
      rw [hrow_j] at h
      simpa [HistoricalMeanReturn.initial_compute, s, s'] using
        Nat.add_right_cancel h
    have hsj : s'.sums j = s.sums j := by
      have h := hsum fun row => (noncash row j).getD 0
      rw [hrow_j] at h
      have := add_right_cancel h
      simpa [HistoricalMeanReturn.initial_compute, s, s'] using this
    exact ⟨hcj, hsj, by
      simp [HistoricalMeanReturn.emitted_value, hcj, hsj]⟩

/-- Witness for C7: a two-row, two-asset-plus-cash history; the entry
at row 0, column 0 is made missing. -/
theorem c7_missing_value_frame_witness :
    (noncash (([fun _ => some 2, fun _ => some 3] : List (Row 2)).get
        ⟨0, by decide⟩) 0 = some 2)
    ∧ (let row' : Row 2 := fun j => if j = (0 : Fin 2).castSucc then none
        else ([fun _ => some 2, fun _ => some 3] : List (Row 2)).get
          ⟨0, by decide⟩ j
       let s := HistoricalMeanReturn.initial_compute
         ([fun _ => some 2, fun _ => some 3] : List (Row 2))
       let s' := HistoricalMeanReturn.initial_compute
         (([fun _ => some 2, fun _ => some 3] : List (Row 2)).set 0 row')
       (s'.counts 0 + 1 = s.counts 0 ∧ s'.sums 0 = s.sums 0 - 2)
       ∧ ∀ j : Fin 2, j ≠ 0 →
           s'.counts j = s.counts j ∧ s'.sums j = s.sums j
             ∧ HistoricalMeanReturn.emitted_value s' j
               = HistoricalMeanReturn.emitted_value s j) :=
  ⟨by decide,
    c7_missing_value_frame ([fun _ => some 2, fun _ => some 3] : List (Row 2))
      0 (by decide) 0 2 (by decide)⟩

theorem cacheLookup_online_cache_of_isSome
    (compute : ForecasterSignature → ℕ → ℚ) (cache : Cache)
    (f : ForecasterInstance) (t : ℕ) (k : CacheKey)
    (h : (cacheLookup cache k).isSome = true) :
    cacheLookup (online_cache compute cache f t).cache k
      = cacheLookup cache k := by
  unfold online_cache
  cases hl : cacheLookup cache (f.sig, t) with
  | some v => rfl
  | none =>
    show (if (f.sig, t) = k then some (compute f.sig t)
        else cacheLookup cache k) = cacheLookup cache k
    by_cases hk : (f.sig, t) = k
    · rw [hk] at hl
      rw [hl] at h
      simp at h
    · rw [if_neg hk]

theorem cacheLookup_after_online_cache
    (compute : ForecasterSignature → ℕ → ℚ) (cache : Cache)
    (f : ForecasterInstance) (t : ℕ) :
    cacheLookup (online_cache compute cache f t).cache (f.sig, t)
      = some (online_cache compute cache f t).value := by
  unfold online_cache
  cases hl : cacheLookup cache (f.sig, t) with
  | some v => simpa using hl
  | none => simp [cacheLookup]

theorem online_cache_computed_iff
    (compute : ForecasterSignature → ℕ → ℚ) (cache : Cache)
    (f : ForecasterInstance) (t : ℕ) :
    (online_cache compute cache f t).computed = true
      ↔ cacheLookup cache (f.sig, t) = none := by
  unfold online_cache
  cases hl : cacheLookup cache (f.sig, t) <;> simp [hl]

theorem countComputations_eq_zero_of_isSome
    (compute : ForecasterSignature → ℕ → ℚ)
    (calls : List (ForecasterInstance × ℕ)) :
    ∀ (cache : Cache) (k : CacheKey), (cacheLookup cache k).isSome = true →
      countComputations compute calls cache k = 0 := by
  induction calls with
  | nil => intro cache k _; rfl
  | cons ft rest ih =>
    intro cache k h
    obtain ⟨f, t⟩ := ft
    unfold countComputations
    have h₂ : (cacheLookup (online_cache compute cache f t).cache k).isSome
        = true := by
      rw [cacheLookup_online_cache_of_isSome compute cache f t k h]
      exact h
    rw [ih _ _ h₂]
    have hnot : ¬((online_cache compute cache f t).computed = true
        ∧ (f.sig, t) = k) := by
      rintro ⟨hc, hk⟩
      rw [online_cache_computed_iff, hk] at hc
      rw [hc] at h
      simp at h
    simp [hnot]

theorem countComputations_le_one
    (compute : ForecasterSignature → ℕ → ℚ)
    (calls : List (ForecasterInstance × ℕ)) :
    ∀ (cache : Cache) (k : CacheKey),
      countComputations compute calls cache k ≤ 1 := by
  induction calls with
  | nil => intro _ _; exact Nat.zero_le 1
  | cons ft rest ih =>
    intro cache k
    obtain ⟨f, t⟩ := ft
    unfold countComputations
    by_cases hc : (online_cache compute cache f t).computed = true
        ∧ (f.sig, t) = k
    · have hstored :
          (cacheLookup (online_cache compute cache f t).cache k).isSome
            = true := by
        rw [← hc.2, cacheLookup_after_online_cache]
        rfl
      rw [countComputations_eq_zero_of_isSome compute rest _ _ hstored]
      simp [hc]
    · simpa [hc] using ih _ _

/-- Claim C3: for a cache dict threaded through one run, the first
wrapped call for an absent key `(structural signature, timestamp)`
invokes the underlying computation and stores the result; a later call
with the same key — here from a distinct instance `f'` that is
configuration-identical (`f'.sig = f.sig`, the object address playing
no role) — returns the stored value without computing and leaves the
cache unchanged; and over any sequence of wrapped calls threading one
cache, the computation runs at most once per key. -/
theorem c3_online_cache_at_most_once
    (compute : ForecasterSignature → ℕ → ℚ) (cache : Cache)
    (f f' : ForecasterInstance) (t : ℕ)
    (calls : List (ForecasterInstance × ℕ)) (c₀ : Cache) (k : CacheKey)
    (hsig : f'.sig = f.sig) (habsent : cacheLookup cache (f.sig, t) = none) :
    (online_cache compute cache f t).computed = true
    ∧ (online_cache compute cache f t).value = compute f.sig t
    ∧ cacheLookup (online_cache compute cache f t).cache (f.sig, t)
        = some (compute f.sig t)
    ∧ online_cache compute (online_cache compute cache f t).cache f' t
        = ⟨compute f.sig t, (online_cache compute cache f t).cache, false⟩
    ∧ countComputations compute calls c₀ k ≤ 1 := by
  have h₁ : online_cache compute cache f t
      = ⟨compute f.sig t, ((f.sig, t), compute f.sig t) :: cache, true⟩ := by
    unfold online_cache
    rw [habsent]
  refine ⟨by rw [h₁], by rw [h₁], ?_, ?_, countComputations_le_one compute calls c₀ k⟩
  · rw [h₁]
    simp [cacheLookup]
  · rw [h₁]
    unfold online_cache
    simp [cacheLookup, hsig]

/-- Witness for C3: two configuration-identical forecaster instances at
distinct object addresses, one timestamp, an initially empty cache, and
a two-call run. -/
theorem c3_online_cache_at_most_once_witness :
    ((⟨1, ⟨0, true⟩⟩ : ForecasterInstance).sig
        = (⟨0, ⟨0, true⟩⟩ : ForecasterInstance).sig
      ∧ cacheLookup [] ((⟨0, ⟨0, true⟩⟩ : ForecasterInstance).sig, 0) = none)
    ∧ ((online_cache (fun _ _ => 7) [] ⟨0, ⟨0, true⟩⟩ 0).computed = true
      ∧ (online_cache (fun _ _ => 7) [] ⟨0, ⟨0, true⟩⟩ 0).value
          = (fun _ _ => (7 : ℚ)) (⟨0, ⟨0, true⟩⟩ : ForecasterInstance).sig 0
      ∧ cacheLookup (online_cache (fun _ _ => 7) [] ⟨0, ⟨0, true⟩⟩ 0).cache
            ((⟨0, ⟨0, true⟩⟩ : ForecasterInstance).sig, 0)
          = some ((fun _ _ => (7 : ℚ)) (⟨0, ⟨0, true⟩⟩ : ForecasterInstance).sig 0)
      ∧ online_cache (fun _ _ => 7)
            (online_cache (fun _ _ => 7) [] ⟨0, ⟨0, true⟩⟩ 0).cache
            ⟨1, ⟨0, true⟩⟩ 0
          = ⟨(fun _ _ => (7 : ℚ)) (⟨0, ⟨0, true⟩⟩ : ForecasterInstance).sig 0,
              (online_cache (fun _ _ => 7) [] ⟨0, ⟨0, true⟩⟩ 0).cache, false⟩
      ∧ countComputations (fun _ _ => 7)
            [(⟨0, ⟨0, true⟩⟩, 0), (⟨1, ⟨0, true⟩⟩, 0)] [] (⟨0, true⟩, 0) ≤ 1) :=
  ⟨⟨rfl, rfl⟩,
    c3_online_cache_at_most_once (fun _ _ => 7) [] ⟨0, ⟨0, true⟩⟩ ⟨1, ⟨0, true⟩⟩ 0
      [(⟨0, ⟨0, true⟩⟩, 0), (⟨1, ⟨0, true⟩⟩, 0)] [] (⟨0, true⟩, 0) rfl rfl⟩

theorem cons_split_iff {α : Type} (a : α) (rest : List α) (G P : α → Prop) :
    (∃ l t r, a :: rest = l ++ t :: r ∧ (∀ s ∈ l, G s) ∧ P t)
      ↔ P a ∨ (G a ∧ ∃ l t r, rest = l ++ t :: r ∧ (∀ s ∈ l, G s) ∧ P t) := by
  constructor
  · rintro ⟨l, t, r, heq, hg, hp⟩
    cases l with
    | nil =>
      simp only [List.nil_append, List.cons.injEq] at heq
      exact Or.inl (heq.1 ▸ hp)
    | cons s l₁ =>
      simp only [List.cons_append, List.cons.injEq] at heq
      refine Or.inr ⟨?_, l₁, t, r, heq.2, fun x hx => hg x (by simp [hx]), hp⟩
      have hs := hg s (by simp)
      rwa [heq.1]
  · rintro (hp | ⟨hga, l, t, r, heq, hg, hp⟩)
    · exact ⟨[], a, rest, rfl, by simp, hp⟩
    · refine ⟨a :: l, t, r, by simp [heq], ?_, hp⟩
      intro s hs
      rcases List.mem_cons.1 hs with h | h
      · rwa [h]
      · exact hg s h

namespace MultiPeriodOptimization

theorem compile_check_objective_ok_iff (objs : List ObjTerm) :
    compile_check_objective objs = .ok ()
      ↔ ∀ t ∈ objs, t.is_dcp = true ∧ t.is_concave = true := by
  induction objs with
  | nil => simp [compile_check_objective]
  | cons a rest ih =>
    by_cases h₁ : a.is_dcp = false
    · simp [compile_check_objective, h₁]
    · have h₁' : a.is_dcp = true := by revert h₁; cases a.is_dcp <;> simp
      by_cases h₂ : a.is_concave = false
      · simp [compile_check_objective, h₁', h₂]
      · have h₂' : a.is_concave = true := by revert h₂; cases a.is_concave <;> simp
        simp [compile_check_objective, h₁', h₂', ih]

theorem compile_check_objective_error_iff (objs : List ObjTerm) (e : CvxError) :
    compile_check_objective objs = .error e
      ↔ ∃ l t r, objs = l ++ t :: r
          ∧ (∀ s ∈ l, s.is_dcp = true ∧ s.is_concave = true)
          ∧ ((e = CvxError.convexSpecificationError ∧ t.is_dcp = false)
            ∨ (e = CvxError.convexityError ∧ t.is_dcp = true
                ∧ t.is_concave = false)) := by
  induction objs with
  | nil =>
    simp only [compile_check_objective]
    constructor
    · intro h
      exact absurd h (by simp)
    · rintro ⟨l, t, r, heq, -, -⟩
      exact absurd heq (by simp)
  | cons a rest ih =>
    rw [cons_split_iff]
    by_cases h₁ : a.is_dcp = false
    · have hred : compile_check_objective (a :: rest)
          = .error CvxError.convexSpecificationError := by
        unfold compile_check_objective
        rw [if_pos h₁]
      rw [hred]
      constructor
      · intro h
        exact Or.inl (Or.inl ⟨((Except.error.injEq _ _).mp h).symm, h₁⟩)
      · rintro (hpa | ⟨⟨hdcp, -⟩, -⟩)
        · rcases hpa with ⟨he, -⟩ | ⟨-, hdcp, -⟩
          · rw [he]
          · rw [h₁] at hdcp
            exact absurd hdcp (by simp)
        · rw [h₁] at hdcp
          exact absurd hdcp (by simp)
    · have h₁' : a.is_dcp = true := by revert h₁; cases a.is_dcp <;> simp
      by_cases h₂ : a.is_concave = false
      · have hred : compile_check_objective (a :: rest)
            = .error CvxError.convexityError := by
          unfold compile_check_objective
          rw [if_neg (by simp [h₁']), if_pos h₂]
        rw [hred]
        constructor
        · intro h
          exact Or.inl (Or.inr ⟨((Except.error.injEq _ _).mp h).symm, h₁', h₂⟩)
        · rintro (hpa | ⟨⟨-, hcon⟩, -⟩)
          · rcases hpa with ⟨-, hdcp⟩ | ⟨he, -, -⟩
            · rw [h₁'] at hdcp
              exact absurd hdcp (by simp)
            · rw [he]
          · rw [h₂] at hcon
            exact absurd hcon (by simp)
      · have h₂' : a.is_concave = true := by revert h₂; cases a.is_concave <;> simp
        have hred : compile_check_objective (a :: rest)
            = compile_check_objective rest := by
          show (if a.is_dcp = false then Except.error CvxError.convexSpecificationError
            else if a.is_concave = false then Except.error CvxError.convexityError
            else compile_check_objective rest) = compile_check_objective rest
          rw [if_neg (by simp [h₁']), if_neg (by simp [h₂'])]
        rw [hred, ih]
        constructor
        · intro hx
          exact Or.inr ⟨⟨h₁', h₂'⟩, hx⟩
        · rintro (hpa | ⟨-, hx⟩)
          · rcases hpa with ⟨-, hdcp⟩ | ⟨-, -, hcon⟩
            · rw [h₁'] at hdcp
              exact absurd hdcp (by simp)
            · rw [h₂'] at hcon
              exact absurd hcon (by simp)
          · exact hx

theorem compile_check_constraints_ok_iff (ucs : List UserConstraint) :
    compile_check_constraints ucs = .ok () ↔ ∀ c ∈ ucs, c.is_dcp = true := by
  induction ucs with
  | nil => simp [compile_check_constraints]
  | cons a rest ih =>
    by_cases h₁ : a.is_dcp = false
    · simp [compile_check_constraints, h₁]
    · have h₁' : a.is_dcp = true := by revert h₁; cases a.is_dcp <;> simp
      simp [compile_check_constraints, h₁', ih]

theorem compile_check_constraints_error_iff (ucs : List UserConstraint)
    (e : CvxError) :
    compile_check_constraints ucs = .error e
      ↔ e = CvxError.convexSpecificationError
        ∧ ∃ l c r, ucs = l ++ c :: r ∧ (∀ d ∈ l, d.is_dcp = true)
            ∧ c.is_dcp = false := by
  induction ucs with
  | nil =>
    simp only [compile_check_constraints]
    constructor
    · intro h
      exact absurd h (by simp)
    · rintro ⟨-, l, c, r, heq, -, -⟩
      exact absurd heq (by simp)
  | cons a rest ih =>
    rw [cons_split_iff a rest (fun d => d.is_dcp = true)
      (fun c => c.is_dcp = false)]
    by_cases h₁ : a.is_dcp = false
    · have hred : compile_check_constraints (a :: rest)
          = .error CvxError.convexSpecificationError := by
        unfold compile_check_constraints
        rw [if_pos h₁]
      rw [hred]
      constructor
      · intro h
        exact ⟨((Except.error.injEq _ _).mp h).symm, Or.inl h₁⟩
      · rintro ⟨he, -⟩
        rw [he]
    · have h₁' : a.is_dcp = true := by revert h₁; cases a.is_dcp <;> simp
      have hred : compile_check_constraints (a :: rest)
          = compile_check_constraints rest := by
        show (if a.is_dcp = false then Except.error CvxError.convexSpecificationError
          else compile_check_constraints rest) = compile_check_constraints rest
        rw [if_neg (by simp [h₁'])]
      rw [hred, ih]
      constructor
      · rintro ⟨he, hx⟩
        exact ⟨he, Or.inr ⟨h₁', hx⟩⟩
      · rintro ⟨he, hpa | ⟨-, hx⟩⟩
        · rw [h₁'] at hpa
          exact absurd hpa (by simp)
        · exact ⟨he, hx⟩

theorem compile_to_cvxpy_ok_shape {H : ℕ} {objective : List ObjTerm}
    {constraints : List (List UserConstraint)} {hasTerminal : Bool}
    {cs : List (CompiledConstraint H)}
    (h : compile_to_cvxpy H objective constraints hasTerminal = .ok cs) :
    cs = assembled_constraints H constraints hasTerminal := by
  unfold compile_to_cvxpy at h
  cases h₁ : compile_check_objective objective with
  | error e => rw [h₁] at h; exact absurd h (by simp)
  | ok u =>
    rw [h₁] at h
    cases h₂ : compile_check_constraints constraints.flatten with
    | error e => rw [h₂] at h; exact absurd h (by simp)
    | ok u₂ =>
      rw [h₂] at h
      simpa using h.symm

theorem compile_to_cvxpy_ok_exists_iff (H : ℕ) (objective : List ObjTerm)
    (constraints : List (List UserConstraint)) (hasTerminal : Bool) :
    (∃ cs, compile_to_cvxpy H objective constraints hasTerminal = .ok cs)
      ↔ compile_check_objective objective = .ok ()
        ∧ compile_check_constraints constraints.flatten = .ok () := by
  unfold compile_to_cvxpy
  cases h₁ : compile_check_objective objective with
  | error e => simp [h₁]
  | ok u =>
    cases u
    cases h₂ : compile_check_constraints constraints.flatten with
    | error e => simp [h₂]
    | ok u₂ => cases u₂; simp

theorem compile_to_cvxpy_error_iff (H : ℕ) (objective : List ObjTerm)
    (constraints : List (List UserConstraint)) (hasTerminal : Bool)
    (e : CvxError) :
    compile_to_cvxpy H objective constraints hasTerminal = .error e
      ↔ compile_check_objective objective = .error e
        ∨ (compile_check_objective objective = .ok ()
            ∧ compile_check_constraints constraints.flatten = .error e) := by
  unfold compile_to_cvxpy
  cases h₁ : compile_check_objective objective with
  | error e₁ => simp [h₁]
  | ok u =>
    cases u
    cases h₂ : compile_check_constraints constraints.flatten with
    | error e₂ => simp [h₂]
    | ok u₂ => cases u₂; simp

/-- Claim C2: a successfully compiled `MultiPeriodOptimization` program
with horizon `H` contains, for every stage `i`, the constraints
`sum(z_i) == 0`, the dynamics `w_i == z_i + w_prev` (with
`w_prev = w_current` for `i = 0` and the previous stage's post-trade
weights otherwise), and `w_i - w_bm == d_i`; when a terminal constraint
is given it also contains `w_{H-1} == target`; consequently any
assignment satisfying all compiled constraints has a first-stage trade
vector summing to zero. -/
theorem c2_mpo_constraint_wiring {H n : ℕ} (hH : 0 < H)
    (objective : List ObjTerm) (constraints : List (List UserConstraint))
    (hasTerminal : Bool) (cs : List (CompiledConstraint H))
    (w_current w_bm terminal_target : Fin n → ℚ)
    (usem : UserConstraint → MpoVars H n → Prop)
    (hok : compile_to_cvxpy H objective constraints hasTerminal
      = .ok cs) :
    (∀ i : Fin H,
      CompiledConstraint.zSumZero i ∈ cs
      ∧ CompiledConstraint.dynamics i ∈ cs
      ∧ CompiledConstraint.benchmarkDiff i ∈ cs)
    ∧ (hasTerminal = true → CompiledConstraint.terminal ∈ cs)
    ∧ (∀ (i : Fin H) (v : MpoVars H n),
        (constraint_holds w_current w_bm terminal_target usem v
            (CompiledConstraint.zSumZero i) ↔ (∑ j, v.z i j) = 0)
        ∧ (constraint_holds w_current w_bm terminal_target usem v
            (CompiledConstraint.dynamics i)
            ↔ ∀ j, v.w_plus i j = v.z i j + prevW w_current v i j)
        ∧ (constraint_holds w_current w_bm terminal_target usem v
            (CompiledConstraint.benchmarkDiff i)
            ↔ ∀ j, v.w_plus i j - w_bm j = v.w_plus_minus_w_bm i j)
        ∧ (constraint_holds w_current w_bm terminal_target usem v
            CompiledConstraint.terminal
            ↔ ∀ j, v.w_plus ⟨H - 1, Nat.sub_lt hH Nat.one_pos⟩ j
                = terminal_target j))
    ∧ ∀ v : MpoVars H n,
        (∀ c ∈ cs, constraint_holds w_current w_bm terminal_target usem v c)
        → (∑ j, v.z ⟨0, hH⟩ j) = 0 := by
  have hcs := compile_to_cvxpy_ok_shape hok
  subst hcs
  refine ⟨?_, ?_, ?_, ?_⟩
  · intro i
    refine ⟨?_, ?_, ?_⟩
    · unfold assembled_constraints
      simp only [List.mem_append, List.mem_ofFn, Set.mem_range]
      exact Or.inl (Or.inl (Or.inr ⟨i, rfl⟩))
    · unfold assembled_constraints
      simp only [List.mem_append, List.mem_flatMap]
      exact Or.inl (Or.inr ⟨i, List.mem_finRange i, by simp⟩)
    · unfold assembled_constraints
      simp only [List.mem_append, List.mem_flatMap]
      exact Or.inl (Or.inr ⟨i, List.mem_finRange i, by simp⟩)
  · intro hterm
    subst hterm
    unfold assembled_constraints
    simp only [List.mem_append]
    exact Or.inr (by simp)
  · intro i v
    refine ⟨Iff.rfl, Iff.rfl, Iff.rfl, ?_⟩
    show (if h : 0 < H then
        ∀ j, v.w_plus ⟨H - 1, Nat.sub_lt h Nat.one_pos⟩ j = terminal_target j
      else True) ↔ _
    rw [dif_pos hH]
  · intro v hv
    have hmem : CompiledConstraint.zSumZero ⟨0, hH⟩
        ∈ assembled_constraints H constraints hasTerminal := by
      unfold assembled_constraints
      simp only [List.mem_append, List.mem_ofFn, Set.mem_range]
      exact Or.inl (Or.inl (Or.inr ⟨⟨0, hH⟩, rfl⟩))
    exact hv _ hmem

/-- Witness for C2: horizon 1, one asset, no user constraints, with a
terminal constraint. -/
theorem c2_mpo_constraint_wiring_witness :
    (compile_to_cvxpy 1 [] [[]] true
      = .ok (assembled_constraints 1 [[]] true))
    ∧ ((∀ i : Fin 1,
        CompiledConstraint.zSumZero i ∈ assembled_constraints 1 [[]] true
        ∧ CompiledConstraint.dynamics i ∈ assembled_constraints 1 [[]] true
        ∧ CompiledConstraint.benchmarkDiff i
            ∈ assembled_constraints 1 [[]] true)
      ∧ (true = true →
          CompiledConstraint.terminal ∈ assembled_constraints 1 [[]] true)
      ∧ (∀ (i : Fin 1) (v : MpoVars 1 1),
          (constraint_holds (fun _ => 0) (fun _ => 0) (fun _ => 0)
              (fun _ _ => True) v (CompiledConstraint.zSumZero i)
            ↔ (∑ j, v.z i j) = 0)
          ∧ (constraint_holds (fun _ => 0) (fun _ => 0) (fun _ => 0)
              (fun _ _ => True) v (CompiledConstraint.dynamics i)
            ↔ ∀ j, v.w_plus i j = v.z i j + prevW (fun _ => 0) v i j)
          ∧ (constraint_holds (fun _ => 0) (fun _ => 0) (fun _ => 0)
              (fun _ _ => True) v (CompiledConstraint.benchmarkDiff i)
            ↔ ∀ j, v.w_plus i j - (fun _ : Fin 1 => (0 : ℚ)) j
                = v.w_plus_minus_w_bm i j)
          ∧ (constraint_holds (fun _ => 0) (fun _ => 0) (fun _ => 0)
              (fun _ _ => True) v CompiledConstraint.terminal
            ↔ ∀ j, v.w_plus ⟨1 - 1, Nat.sub_lt Nat.one_pos Nat.one_pos⟩ j
                = (fun _ : Fin 1 => (0 : ℚ)) j))
      ∧ ∀ v : MpoVars 1 1,
          (∀ c ∈ assembled_constraints 1 [[]] true,
            constraint_holds (fun _ => 0) (fun _ => 0) (fun _ => 0)
              (fun _ _ => True) v c)
          → (∑ j, v.z ⟨0, Nat.one_pos⟩ j) = 0) :=
  ⟨rfl,
    c2_mpo_constraint_wiring Nat.one_pos [] [[]] true
      (assembled_constraints 1 [[]] true) (fun _ => 0) (fun _ => 0)
      (fun _ => 0) (fun _ _ => True) rfl⟩

/-- Claim C4: for `MultiPeriodOptimization`, compilation and its
validation run inside `initialize_estimator_recursive` — a function of
the policy's terms only, taking no market data and preceding any solve
— and succeed exactly when every objective term is DCP and concave and
every constraint term is DCP; a non-DCP term (objective or constraint)
makes initialization fail with `ConvexSpecificationError`, a DCP but
non-concave objective term with `ConvexityError`, and no other error is
produced by compilation. -/
theorem c4_initialization_validation (H : ℕ) (objective : List ObjTerm)
    (constraints : List (List UserConstraint)) (hasTerminal : Bool) :
    ((∃ cs, initialize_estimator_recursive H objective constraints hasTerminal
        = .ok cs)
      ↔ (∀ t ∈ objective, t.is_dcp = true ∧ t.is_concave = true)
        ∧ ∀ c ∈ constraints.flatten, c.is_dcp = true)
    ∧ (initialize_estimator_recursive H objective constraints hasTerminal
        = .error CvxError.convexityError
      ↔ ∃ l t r, objective = l ++ t :: r
          ∧ (∀ s ∈ l, s.is_dcp = true ∧ s.is_concave = true)
          ∧ t.is_dcp = true ∧ t.is_concave = false)
    ∧ (initialize_estimator_recursive H objective constraints hasTerminal
        = .error CvxError.convexSpecificationError
      ↔ (∃ l t r, objective = l ++ t :: r
            ∧ (∀ s ∈ l, s.is_dcp = true ∧ s.is_concave = true)
            ∧ t.is_dcp = false)
        ∨ ((∀ t ∈ objective, t.is_dcp = true ∧ t.is_concave = true)
            ∧ ∃ l c r, constraints.flatten = l ++ c :: r
                ∧ (∀ d ∈ l, d.is_dcp = true) ∧ c.is_dcp = false))
    ∧ ∀ e, initialize_estimator_recursive H objective constraints hasTerminal
          = .error e
        → e = CvxError.convexSpecificationError ∨ e = CvxError.convexityError := by
  have hinit : initialize_estimator_recursive H objective constraints hasTerminal
      = compile_to_cvxpy H objective constraints hasTerminal := rfl
  refine ⟨?_, ?_, ?_, ?_⟩
  · rw [hinit, compile_to_cvxpy_ok_exists_iff, compile_check_objective_ok_iff,
      compile_check_constraints_ok_iff]
  · rw [hinit, compile_to_cvxpy_error_iff]
    constructor
    · rintro (h | ⟨-, h⟩)
      · rw [compile_check_objective_error_iff] at h
        obtain ⟨l, t, r, heq, hg, hp⟩ := h
        rcases hp with ⟨hbad, -⟩ | ⟨-, hdcp, hcon⟩
        · exact absurd hbad (by simp)
        · exact ⟨l, t, r, heq, hg, hdcp, hcon⟩
      · rw [compile_check_constraints_error_iff] at h
        exact absurd h.1 (by simp)
    · rintro ⟨l, t, r, heq, hg, hdcp, hcon⟩
      refine Or.inl ?_
      rw [compile_check_objective_error_iff]
      exact ⟨l, t, r, heq, hg, Or.inr ⟨rfl, hdcp, hcon⟩⟩
  · rw [hinit, compile_to_cvxpy_error_iff]
    constructor
    · rintro (h | ⟨hok, h⟩)
      · rw [compile_check_objective_error_iff] at h
        obtain ⟨l, t, r, heq, hg, hp⟩ := h
        rcases hp with ⟨-, hdcp⟩ | ⟨hbad, -, -⟩
        · exact Or.inl ⟨l, t, r, heq, hg, hdcp⟩
        · exact absurd hbad (by simp)
      · rw [compile_check_constraints_error_iff] at h
        rw [compile_check_objective_ok_iff] at hok
        exact Or.inr ⟨hok, h.2⟩
    · rintro (⟨l, t, r, heq, hg, hdcp⟩ | ⟨hgood, l, c, r, heq, hg, hdcp⟩)
      · refine Or.inl ?_
        rw [compile_check_objective_error_iff]
        exact ⟨l, t, r, heq, hg, Or.inl ⟨rfl, hdcp⟩⟩
      · refine Or.inr ⟨?_, ?_⟩
        · rw [compile_check_objective_ok_iff]
          exact hgood
        · rw [compile_check_constraints_error_iff]
          exact ⟨rfl, l, c, r, heq, hg, hdcp⟩
  · intro e he
    rw [hinit, compile_to_cvxpy_error_iff] at he
    rcases he with h | ⟨-, h⟩
    · rw [compile_check_objective_error_iff] at h
      obtain ⟨l, t, r, heq, hg, hp⟩ := h
      rcases hp with ⟨he₁, -⟩ | ⟨he₁, -, -⟩
      · exact Or.inl he₁
      · exact Or.inr he₁
    · rw [compile_check_constraints_error_iff] at h
      exact Or.inl h.1

/-- Claim C5: at a decision step of `MultiPeriodOptimization`, a solver
exception or a status among infeasible, infeasible-inaccurate,
unbounded, unbounded-inaccurate makes `values_in_time_recursive` fail
with `PortfolioOptimizationError` (in this single-shot model there is
no retry), while an optimal or optimal-inaccurate status yields
`current_weights + z_0` as the realized post-trade weights. -/
theorem c5_solver_outcome_handling {n : ℕ} (current_weights z0 : Fin n → ℚ) :
    values_in_time_recursive current_weights SolveOutcome.solverError
        = .error CvxError.portfolioOptimizationError
    ∧ values_in_time_recursive current_weights
        (SolveOutcome.solved SolverStatus.infeasible z0)
        = .error CvxError.portfolioOptimizationError
    ∧ values_in_time_recursive current_weights
        (SolveOutcome.solved SolverStatus.infeasible_inaccurate z0)
        = .error CvxError.portfolioOptimizationError
    ∧ values_in_time_recursive current_weights
        (SolveOutcome.solved SolverStatus.unbounded z0)
        = .error CvxError.portfolioOptimizationError
    ∧ values_in_time_recursive current_weights
        (SolveOutcome.solved SolverStatus.unbounded_inaccurate z0)
        = .error CvxError.portfolioOptimizationError
    ∧ values_in_time_recursive current_weights
        (SolveOutcome.solved SolverStatus.optimal z0)
        = .ok (fun i => current_weights i + z0 i)
    ∧ values_in_time_recursive current_weights
        (SolveOutcome.solved SolverStatus.optimal_inaccurate z0)
        = .ok (fun i => current_weights i + z0 i) := by
  refine ⟨rfl, ?_, ?_, ?_, ?_, ?_, ?_⟩ <;> simp [values_in_time_recursive]

end MultiPeriodOptimization

/-- Claim C6: on a symmetric input with eigendecomposition
`Q * diagonal λ * Qᵀ` (the `np.linalg.eigh` contract),
`project_on_psd_cone_and_factorize` returns
`F = Q * diagonal (sqrt (max λ 0))`, whose Gram product satisfies
`F * Fᵀ = Q * diagonal (max λ 0) * Qᵀ` and is positive semidefinite;
`HistoricalFactorizedCovariance.values_in_time` returns exactly this
factorization applied to its estimated covariance; and when no
eigenvalue is clipped the factorization reproduces the input. -/
theorem c6_psd_factorization {n : ℕ} (eigh : EighOracle n)
    (s : HistoricalFactorizedCovariance.State n)
    (hsymm : (HistoricalFactorizedCovariance.covariance_estimate s).IsSymm)
    (hdecomp : HistoricalFactorizedCovariance.covariance_estimate s
      = (eigh (HistoricalFactorizedCovariance.covariance_estimate s)).2
        * Matrix.diagonal
            (eigh (HistoricalFactorizedCovariance.covariance_estimate s)).1
        * ((eigh (HistoricalFactorizedCovariance.covariance_estimate s)).2)ᵀ) :
    HistoricalFactorizedCovariance.values_in_time eigh s
        = project_on_psd_cone_and_factorize eigh
            (HistoricalFactorizedCovariance.covariance_estimate s)
    ∧ project_on_psd_cone_and_factorize eigh
          (HistoricalFactorizedCovariance.covariance_estimate s)
        = (eigh (HistoricalFactorizedCovariance.covariance_estimate s)).2
          * Matrix.diagonal (fun i => Real.sqrt
              (max ((eigh (HistoricalFactorizedCovariance.covariance_estimate s)).1 i) 0))
    ∧ project_on_psd_cone_and_factorize eigh
          (HistoricalFactorizedCovariance.covariance_estimate s)
        * (project_on_psd_cone_and_factorize eigh
            (HistoricalFactorizedCovariance.covariance_estimate s))ᵀ
        = (eigh (HistoricalFactorizedCovariance.covariance_estimate s)).2
          * Matrix.diagonal (fun i =>
              max ((eigh (HistoricalFactorizedCovariance.covariance_estimate s)).1 i) 0)
          * ((eigh (HistoricalFactorizedCovariance.covariance_estimate s)).2)ᵀ
    ∧ (project_on_psd_cone_and_factorize eigh
          (HistoricalFactorizedCovariance.covariance_estimate s)
        * (project_on_psd_cone_and_factorize eigh
            (HistoricalFactorizedCovariance.covariance_estimate s))ᵀ).PosSemidef
    ∧ ((∀ i, 0 ≤ (eigh (HistoricalFactorizedCovariance.covariance_estimate s)).1 i)
        → project_on_psd_cone_and_factorize eigh
              (HistoricalFactorizedCovariance.covariance_estimate s)
            * (project_on_psd_cone_and_factorize eigh
                (HistoricalFactorizedCovariance.covariance_estimate s))ᵀ
          = HistoricalFactorizedCovariance.covariance_estimate s) := by
  set A := HistoricalFactorizedCovariance.covariance_estimate s with hA
  set Q := (eigh A).2 with hQ
  set d := (eigh A).1 with hd
  have hF : project_on_psd_cone_and_factorize eigh A
      = Q * Matrix.diagonal fun i => Real.sqrt (max (d i) 0) := rfl
  have hDD : (Matrix.diagonal fun i => Real.sqrt (max (d i) 0))
      * (Matrix.diagonal fun i => Real.sqrt (max (d i) 0))
      = Matrix.diagonal fun i => max (d i) 0 := by
    rw [Matrix.diagonal_mul_diagonal]
    refine congrArg Matrix.diagonal ?_
    funext i
    exact Real.mul_self_sqrt (le_max_right _ _)
  have hGram : project_on_psd_cone_and_factorize eigh A
      * (project_on_psd_cone_and_factorize eigh A)ᵀ
      = Q * Matrix.diagonal (fun i => max (d i) 0) * Qᵀ := by
    rw [hF, Matrix.transpose_mul, Matrix.diagonal_transpose]
    rw [Matrix.mul_assoc, ← Matrix.mul_assoc
      (Matrix.diagonal fun i => Real.sqrt (max (d i) 0)), hDD,
      ← Matrix.mul_assoc, Matrix.mul_assoc]
  refine ⟨rfl, hF, hGram, ?_, ?_⟩
  · have h := Matrix.posSemidef_self_mul_conjTranspose
      (project_on_psd_cone_and_factorize eigh A)
    rwa [Matrix.conjTranspose_eq_transpose_of_trivial] at h
  · intro hnonneg
    have hmax : (fun i => max (d i) 0) = d := by
      funext i
      exact max_eq_left (hnonneg i)
    rw [hGram, hmax]
    exact hdecomp.symm

/-- Witness for C6: a one-asset state with count 1 and sum of squares 4,
whose estimated covariance is the symmetric matrix `[[4]]`, with the
eigendecomposition eigenvalue 4, eigenvector matrix the identity. -/
theorem c6_psd_factorization_witness :
    ((HistoricalFactorizedCovariance.covariance_estimate
        (⟨Matrix.of fun _ _ => 1, Matrix.of fun _ _ => 4⟩ :
          HistoricalFactorizedCovariance.State 1)).IsSymm
      ∧ HistoricalFactorizedCovariance.covariance_estimate
          (⟨Matrix.of fun _ _ => 1, Matrix.of fun _ _ => 4⟩ :
            HistoricalFactorizedCovariance.State 1)
        = ((fun _ => (fun _ => (4 : ℝ), (1 : Mat 1)) : EighOracle 1)
            (HistoricalFactorizedCovariance.covariance_estimate
              (⟨Matrix.of fun _ _ => 1, Matrix.of fun _ _ => 4⟩ :
                HistoricalFactorizedCovariance.State 1))).2
          * Matrix.diagonal
              ((( fun _ => (fun _ => (4 : ℝ), (1 : Mat 1)) : EighOracle 1)
                (HistoricalFactorizedCovariance.covariance_estimate
                  (⟨Matrix.of fun _ _ => 1, Matrix.of fun _ _ => 4⟩ :
                    HistoricalFactorizedCovariance.State 1))).1)
          * ((((fun _ => (fun _ => (4 : ℝ), (1 : Mat 1))) : EighOracle 1)
              (HistoricalFactorizedCovariance.covariance_estimate
                (⟨Matrix.of fun _ _ => 1, Matrix.of fun _ _ => 4⟩ :
                  HistoricalFactorizedCovariance.State 1))).2)ᵀ)
    ∧ (HistoricalFactorizedCovariance.values_in_time
          ((fun _ => (fun _ => (4 : ℝ), (1 : Mat 1))) : EighOracle 1)
          (⟨Matrix.of fun _ _ => 1, Matrix.of fun _ _ => 4⟩ :
            HistoricalFactorizedCovariance.State 1)
        = project_on_psd_cone_and_factorize
            ((fun _ => (fun _ => (4 : ℝ), (1 : Mat 1))) : EighOracle 1)
            (HistoricalFactorizedCovariance.covariance_estimate
              (⟨Matrix.of fun _ _ => 1, Matrix.of fun _ _ => 4⟩ :
                HistoricalFactorizedCovariance.State 1))
      ∧ (project_on_psd_cone_and_factorize
            ((fun _ => (fun _ => (4 : ℝ), (1 : Mat 1))) : EighOracle 1)
            (HistoricalFactorizedCovariance.covariance_estimate
              (⟨Matrix.of fun _ _ => 1, Matrix.of fun _ _ => 4⟩ :
                HistoricalFactorizedCovariance.State 1))
          * (project_on_psd_cone_and_factorize
              ((fun _ => (fun _ => (4 : ℝ), (1 : Mat 1))) : EighOracle 1)
              (HistoricalFactorizedCovariance.covariance_estimate
                (⟨Matrix.of fun _ _ => 1, Matrix.of fun _ _ => 4⟩ :
                  HistoricalFactorizedCovariance.State 1)))ᵀ).PosSemidef) := by
  have h1 : (HistoricalFactorizedCovariance.covariance_estimate
      (⟨Matrix.of fun _ _ => 1, Matrix.of fun _ _ => 4⟩ :
        HistoricalFactorizedCovariance.State 1)).IsSymm := by
    show _ᵀ = _
    ext i j
    fin_cases i
    fin_cases j
    rfl
  have h2 : HistoricalFactorizedCovariance.covariance_estimate
      (⟨Matrix.of fun _ _ => 1, Matrix.of fun _ _ => 4⟩ :
        HistoricalFactorizedCovariance.State 1)
      = ((fun _ => (fun _ => (4 : ℝ), (1 : Mat 1)) : EighOracle 1)
          (HistoricalFactorizedCovariance.covariance_estimate
            (⟨Matrix.of fun _ _ => 1, Matrix.of fun _ _ => 4⟩ :
              HistoricalFactorizedCovariance.State 1))).2
        * Matrix.diagonal
            ((( fun _ => (fun _ => (4 : ℝ), (1 : Mat 1)) : EighOracle 1)
              (HistoricalFactorizedCovariance.covariance_estimate
                (⟨Matrix.of fun _ _ => 1, Matrix.of fun _ _ => 4⟩ :
                  HistoricalFactorizedCovariance.State 1))).1)
        * ((((fun _ => (fun _ => (4 : ℝ), (1 : Mat 1))) : EighOracle 1)
            (HistoricalFactorizedCovariance.covariance_estimate
              (⟨Matrix.of fun _ _ => 1, Matrix.of fun _ _ => 4⟩ :
                HistoricalFactorizedCovariance.State 1))).2)ᵀ := by
    ext i j
    fin_cases i
    fin_cases j
    simp [HistoricalFactorizedCovariance.covariance_estimate]
  have hall := c6_psd_factorization
    ((fun _ => (fun _ => (4 : ℝ), (1 : Mat 1))) : EighOracle 1)
    (⟨Matrix.of fun _ _ => 1, Matrix.of fun _ _ => 4⟩ :
      HistoricalFactorizedCovariance.State 1) h1 h2
  exact ⟨⟨h1, h2⟩, hall.1, hall.2.2.2.1⟩

/-- Claim C8: `Policy.execute` fails with `DataError` whenever the total
holdings value is negative, for every policy — the check precedes the
conversion of holdings to weights and any target-weight computation,
so the result does not depend on `policyEval`. -/
theorem c8_negative_holdings_data_error {n : ℕ}
    (policyEval : (Fin (n + 1) → ℚ) → ℚ → Except CvxError (Fin (n + 1) → ℚ))
    (h : Fin (n + 1) → ℚ) (hneg : (∑ i, h i) < 0) :
    Policy.execute policyEval h = .error CvxError.dataError := by
  unfold Policy.execute
  rw [if_pos hneg]

/-- Witness for C8: a single short cash position of −1 dollars. -/
theorem c8_negative_holdings_data_error_witness :
    ((∑ i : Fin 1, (fun _ => (-1 : ℚ)) i) < 0)
    ∧ Policy.execute (fun w _ => .ok w) (fun _ : Fin 1 => (-1 : ℚ))
        = .error CvxError.dataError :=
  ⟨by simp,
    c8_negative_holdings_data_error (fun w _ => .ok w)
      (fun _ : Fin 1 => (-1 : ℚ)) (by simp)⟩

theorem execute_of_nonneg {n : ℕ}
    (policyEval : (Fin (n + 1) → ℚ) → ℚ → Except CvxError (Fin (n + 1) → ℚ))
    (h : Fin (n + 1) → ℚ) (hv : ¬ (∑ i, h i) < 0) :
    Policy.execute policyEval h
      = match policyEval (fun i => h i / ∑ i, h i) (∑ i, h i) with
        | .ok w_plus => .ok fun i => (w_plus i - h i / ∑ i, h i) * (∑ i, h i)
        | .error e => .error e := by
  simp only [Policy.execute]
  rw [if_neg hv]

/-- Claim C9: over five non-cash assets plus cash (cash last), the
`Uniform` policy with leverage 1, evaluated from current weights
`[1,0,0,0,0,0]`, returns the post-trade target weights
`[0.2,0.2,0.2,0.2,0.2,0]`, and `Policy.execute` consequently returns
the trade vector equal to the uniform target minus the current weights
(times the portfolio value, here 1). -/
theorem c9_uniform_first_step :
    FixedWeights.values_in_time_recursive
        (fun _ => some (Uniform.target_weights 5 1)) 0
        (![1, 0, 0, 0, 0, 0] : Fin 6 → ℚ)
      = .ok ![1 / 5, 1 / 5, 1 / 5, 1 / 5, 1 / 5, 0]
    ∧ Policy.execute
        (fun w _ => FixedWeights.values_in_time_recursive
          (fun _ => some (Uniform.target_weights 5 1)) 0 w)
        (![1, 0, 0, 0, 0, 0] : Fin 6 → ℚ)
      = .ok (![1 / 5, 1 / 5, 1 / 5, 1 / 5, 1 / 5, 0]
          - (![1, 0, 0, 0, 0, 0] : Fin 6 → ℚ)) := by
  have hT : Uniform.target_weights 5 1 = ![1/5, 1/5, 1/5, 1/5, 1/5, 0] := by
    funext i
    fin_cases i <;>
      norm_num [Uniform.target_weights, Fin.sum_univ_succ, Fin.ext_iff, Fin.last]
  have hsum : (∑ i, (![1, 0, 0, 0, 0, 0] : Fin 6 → ℚ) i) = 1 := by
    norm_num [Fin.sum_univ_succ]
  have hfirst : FixedWeights.values_in_time_recursive
      (fun _ => some (Uniform.target_weights 5 1)) 0
      (![1, 0, 0, 0, 0, 0] : Fin 6 → ℚ)
      = .ok ![1 / 5, 1 / 5, 1 / 5, 1 / 5, 1 / 5, 0] := by
    show Except.ok (fun i => (![1, 0, 0, 0, 0, 0] : Fin 6 → ℚ) i
        + Uniform.target_weights 5 1 i
        - (![1, 0, 0, 0, 0, 0] : Fin 6 → ℚ) i) = _
    rw [hT]
    congr 1
    funext i
    fin_cases i <;> norm_num
  refine ⟨hfirst, ?_⟩
  rw [execute_of_nonneg _ _ (by rw [hsum]; norm_num)]
  rw [show (fun i => (![1, 0, 0, 0, 0, 0] : Fin 6 → ℚ) i
      / ∑ i, (![1, 0, 0, 0, 0, 0] : Fin 6 → ℚ) i)
      = (![1, 0, 0, 0, 0, 0] : Fin 6 → ℚ) from by
    funext i
    rw [hsum, div_one]]
  rw [hfirst]
  show Except.ok (fun i => ((![1 / 5, 1 / 5, 1 / 5, 1 / 5, 1 / 5, 0] : Fin 6 → ℚ) i
      - (![1, 0, 0, 0, 0, 0] : Fin 6 → ℚ) i
        / ∑ i, (![1, 0, 0, 0, 0, 0] : Fin 6 → ℚ) i)
      * (∑ i, (![1, 0, 0, 0, 0, 0] : Fin 6 → ℚ) i)) = _
  rw [hsum]
  congr 1
  funext i
  fin_cases i <;> norm_num

/-- Claim C10: when the user-supplied trade-weights (`FixedTrades`) or
target-weights (`FixedWeights`) table has no entry for time `t`, the
`MissingTimesError` raised by the data lookup is caught inside
`values_in_time_recursive` and the policy returns `current_weights`
unchanged instead of propagating the error. -/
theorem c10_missing_times_no_trade {n : ℕ}
    (trades_weights target_weights : ℕ → Option (Fin n → ℚ)) (t : ℕ)
    (current_weights : Fin n → ℚ)
    (h₁ : trades_weights t = none) (h₂ : target_weights t = none) :
    FixedTrades.values_in_time_recursive trades_weights t current_weights
        = .ok current_weights
    ∧ FixedWeights.values_in_time_recursive target_weights t current_weights
        = .ok current_weights := by
  constructor
  · unfold FixedTrades.values_in_time_recursive
      DataEstimator.values_in_time_recursive
    rw [h₁]
  · unfold FixedWeights.values_in_time_recursive
      DataEstimator.values_in_time_recursive
    rw [h₂]

/-- Witness for C10: an everywhere-empty data table at time 0. -/
theorem c10_missing_times_no_trade_witness :
    ((fun _ : ℕ => (none : Option (Fin 1 → ℚ))) 0 = none)
    ∧ ((fun _ : ℕ => (none : Option (Fin 1 → ℚ))) 0 = none)
    ∧ (FixedTrades.values_in_time_recursive
          (fun _ => (none : Option (Fin 1 → ℚ))) 0 (fun _ => 1)
        = .ok (fun _ => 1)
      ∧ FixedWeights.values_in_time_recursive
          (fun _ => (none : Option (Fin 1 → ℚ))) 0 (fun _ => 1)
        = .ok (fun _ => 1)) :=
  ⟨rfl, rfl,
    c10_missing_times_no_trade (fun _ => none) (fun _ => none) 0
      (fun _ => 1) rfl rfl⟩

end Cvxportfolio
